import Mathlib

/-!
yarra: verification and archival of simulation studies.

A shallow embedding of `src/index.js`.  JavaScript strings are modelled as
lists of characters (one `Char` per code unit); every pattern the program
searches for is ASCII.  Promises are modelled by their settlement, and the
external collaborators (storage, `verify`, `zipBucket`, `vaporlock`,
`Study.paths`) by explicit outcome functions.
-/

namespace Yarra

/-- A JavaScript string, as the list of its code units. -/
abbrev Str := List Char

/-- The literal `"config.json"`. -/
def configJson : Str := "config.json".toList

/-- The literal `"/config.json"`. -/
def slashConfigJson : Str := "/config.json".toList

/-- The literal `".zip"`. -/
def dotZip : Str := ".zip".toList

/-- The method `s.endsWith(suffix)`. -/
def endsWith (s suffix : Str) : Bool := suffix.isSuffixOf s

/-- The method `s.replace(pat, rep)` for a string pattern and a replacement without `$`:
the first occurrence of `pat` in `s`, scanning from the left, is replaced by
`rep`; without an occurrence `s` is returned unchanged. -/
def replace (s pat rep : Str) : Str :=
  if pat.isPrefixOf s then rep ++ s.drop pat.length
  else
    match s with
    | [] => []
    | c :: cs => c :: replace cs pat rep

/-- File metadata kept by `ls` for one object: `{name, metadata}`. -/
structure FileInfo where
  name : Str
  metadata : Str
  deriving DecidableEq, Repr

/-- A directory listing as built by `ls`: the object's own properties, in the
order `Object.keys` enumerates them.  Keys of a JavaScript object are unique. -/
abbrev Listing := List (Str × FileInfo)

/-- The call `Object.keys(dir)`. -/
def keys (dir : Listing) : List Str := dir.map Prod.fst

/-- The test `lsdir.hasOwnProperty(f)`. -/
def hasOwnProperty (lsdir : Listing) (f : Str) : Bool := (keys lsdir).contains f

/-- The object `{dir, studies}` returned by `studies`, with the property
`verifiedStudies` that `verifyAll` adds later (absent until then). -/
structure Obj where
  dir : Listing
  studies : List Str
  verifiedStudies : Option (List Str)
  deriving DecidableEq, Repr

/-- The function `studies(dir)`, returning `{ dir, studies: Object.keys(dir).filter((fname)=>(fname.endsWith("config.json"))) }`. -/
def studies (dir : Listing) : Obj :=
  { dir := dir
    studies := (keys dir).filter (fun fname => endsWith fname configJson)
    verifiedStudies := none }

/-- The `fromPath` that `zip` hands to `zipBucket`:
`pathToStudyJSON.replace("config.json","")`. -/
def zipFromPath (pathToStudyJSON : Str) : Str := replace pathToStudyJSON configJson []

/-- The `toPath` that `zip` hands to `zipBucket`:
`pathToStudyJSON.replace("/config.json",".zip")`. -/
def zipToPath (pathToStudyJSON : Str) : Str := replace pathToStudyJSON slashConfigJson dotZip

/-- The `prefix` computed by `deleteStudy`:
`pathToStudyJSON.replace("config.json","")`. -/
def deletePrefix (pathToStudyJSON : Str) : Str := replace pathToStudyJSON configJson []

/-! ## Values, settlements and the verification step -/

/-- The JavaScript values the program can observe in a promise settlement: it
only tests such a value for truthiness, reads its element `0`, and asks whether
it is a string.  An array is kept as its element `0` (the other elements are
never read); `error` is an `Error` object, which has no element `0`. -/
inductive Val where
  | undefined
  | null
  | bool (b : Bool)
  | num (n : Int)
  | nan
  | str (s : Str)
  | error (message : Str)
  | emptyArray
  | array (first : Val)
  deriving DecidableEq, Repr

deriving instance DecidableEq for Except

/-- Truthiness of a value, as tested by `!x` and `x && y`. -/
def truthy : Val → Bool
  | .undefined => false
  | .null => false
  | .bool b => b
  | .num n => n != 0
  | .nan => false
  | .str s => !s.isEmpty
  | .error _ => true
  | .emptyArray => true
  | .array _ => true

/-- The expression `x[0]` for a value other than `undefined` and `null`. -/
def index0 : Val → Val
  | .str (c :: _) => .str [c]
  | .array first => first
  | _ => .undefined

/-- The operator `a && b`: `a` when `a` is falsy, else `b`. -/
def jsAnd (a b : Val) : Val := if truthy a then b else a

/-- The expression `x && x[0]` of `verifyStudy`. -/
def andIndex0 (x : Val) : Val := jsAnd x (index0 x)

/-- The function `show` of the source: returns its argument (the console output is not modelled). -/
def jsShow (x : Val) : Val := x

/-- The function `log`: returns its argument (the console output is not modelled;
every value of `Val` can be serialised by `JSON.stringify`). -/
def log (x : Val) : Val := x

/-- The function `allExist(paths, lsdir)`, that is
`paths.every((f)=>(lsdir.hasOwnProperty(f)))`. -/
def allExist (paths : List Str) (lsdir : Listing) : Bool :=
  paths.all (fun f => hasOwnProperty lsdir f)

/-- The loop of `allTrue`: `while ( (c) && (i-->0) ) c = (c && conditions[i])`,
with `i` counting the elements of `conditions` still to be read, from the end. -/
def allTrueLoop (conditions : List Val) : Nat → Val → Val
  | 0, c => c
  | i + 1, c =>
    if truthy c then
      allTrueLoop conditions i (jsAnd c (conditions.getD i .undefined))
    else c

/-- The function `allTrue(conditions)`: starts with `i = conditions.length`, `c = true`. -/
def allTrue (conditions : List Val) : Val :=
  allTrueLoop conditions conditions.length (.bool true)

/-- The bucket registry `buckets`, as set by `setBuckets`. -/
structure Buckets where
  sim : Str
  study : Str
  lock : Str
  deriving DecidableEq, Repr

/-- What `verifyStudy` reads of a parsed descriptor: `study.configurations`,
absent when reading `.length` of it throws a `TypeError`, else the array. -/
structure StudyJSON where
  configurations : Option (List Str)
  deriving DecidableEq, Repr

/-- The collaborators of the verification step.  `dlJSON bucket path` is the
settlement of the download-and-parse promise; `paths p n` is
`Study.paths(p, n, "md5.json")` of the package
`single-market-robot-simulator-study`; `verify study i bucket f` is the
settlement of the `i`-th call `verify(bucket, f)` made for `study`. -/
structure Collab where
  dlJSON : Str → Str → Except Val StudyJSON
  paths : Str → Nat → List Str
  verify : Str → Nat → Str → Str → Except Val Val

/-- The handler pair `.then(show,show)`: a resolved value and a rejection reason
both become the value of the resulting promise. -/
def thenShowShow (r : Except Val Val) : Val :=
  match r with
  | .ok v => jsShow v
  | .error e => jsShow e

/-- The reason thrown when `study.configurations.length` cannot be read. -/
def typeError : Val := .error "TypeError: cannot read property length".toList

/-- The error `new Error("not ready, study: "+pathToStudyJSON)`. -/
def notReadyError (pathToStudyJSON : Str) : Val :=
  .error ("not ready, study: ".toList ++ pathToStudyJSON)

/-- The error `new Error("md5 verification failed for study:"+pathToStudyJSON)`. -/
def md5FailedError (pathToStudyJSON : Str) : Val :=
  .error ("md5 verification failed for study:".toList ++ pathToStudyJSON)

/-- The function `verifyStudy(pathToStudyJSON, dir)`: the settlement of the returned
promise, and the list of `verify(bucket, f)` calls issued, in order. -/
def verifyStudy (c : Collab) (buckets : Buckets) (pathToStudyJSON : Str) (dir : Listing) :
    Except Val Str × List (Str × Str) :=
  match c.dlJSON buckets.sim pathToStudyJSON with
  | .error e => (.error e, [])
  | .ok study =>
    match study.configurations with
    | none => (.error typeError, [])
    | some configurations =>
      let md5jsonfiles := c.paths pathToStudyJSON configurations.length
      let studyReady := allExist md5jsonfiles dir
      if !studyReady then
        (.error (notReadyError pathToStudyJSON), [])
      else
        let calls := md5jsonfiles.map (fun f => (buckets.sim, f))
        let results := md5jsonfiles.enum.map
          (fun x => thenShowShow (c.verify pathToStudyJSON x.1 buckets.sim x.2))
        let ok := allTrue (results.map (fun x => andIndex0 x))
        if !truthy ok then
          (.error (md5FailedError pathToStudyJSON), calls)
        else
          (.ok pathToStudyJSON, calls)

/-- The filter of `verifyAll`: `(typeof(s)==='string') && (s.endsWith("config.json"))`. -/
def isStudyString (s : Val) : Bool :=
  match s with
  | .str t => endsWith t configJson
  | _ => false

/-- The string held by a value that passed `isStudyString`. -/
def strOf : Val → Str
  | .str t => t
  | _ => []

/-- The function `verifyAll(obj)`: every `verifyStudy(s,obj.dir).catch(log)` resolves, to
the study path or to the logged rejection reason, so `Promise.all` resolves; the
values are then filtered into `obj.verifiedStudies`. -/
def verifyAll (c : Collab) (buckets : Buckets) (obj : Obj) : Except Val Obj :=
  let verifiedStudies : List Val := obj.studies.map (fun s =>
    match (verifyStudy c buckets s obj.dir).1 with
    | .ok v => .str v
    | .error e => log e)
  .ok { obj with
        verifiedStudies := some ((verifiedStudies.filter isStudyString).map strOf) }

/-! ## The archive step -/

/-- The calls the archive step issues on its collaborators, and its console
reports, in the order they happen. -/
inductive Event where
  | vaporlock (bucket key : Str)
  | zipBucket (fromBucket fromPath toBucket toPath : Str)
  | deleteFiles (bucket pfx : Str)
  | deleteFile (bucket path : Str)
  | logZippedAndDeleted (study : Str)
  | logErrorProcessing (study : Str)
  deriving DecidableEq, Repr

/-- The outcomes of the collaborators: given the history of events up to and
including the call just issued, whether the promise of that call resolves
(`true`) or rejects (`false`).  Any behaviour of the collaborators, also one
that depends on everything that happened before, is such a function. -/
abbrev Outcomes := List Event → Bool

/-- How a call completes: its promise resolves, its promise rejects, or the call
throws before returning a promise. -/
inductive Completion where
  | resolved
  | rejected
  | threw (message : Str)
  deriving DecidableEq, Repr

/-- The field `backoffStrategy.retries`. -/
def retries : Nat := 3

/-- The call `promiseRetry((retry)=>(call.catch(retry)), backoffStrategy)` of the
package `promise-retry`: `call` is issued, and issued again after each rejection
while retries are left (`n`); the delays between attempts are not modelled. -/
def promiseRetry (o : Outcomes) (call : Event) : Nat → List Event → Bool × List Event
  | 0, tr => (o (tr ++ [call]), tr ++ [call])
  | n + 1, tr =>
    if o (tr ++ [call]) then (true, tr ++ [call])
    else promiseRetry o call n (tr ++ [call])

/-- The function `zip(pathToStudyJSON)`: `vaporlock(buckets.lock, pathToStudyJSON)`,
then on success `zipBucket` with the computed `fromPath` and `toPath`. -/
def zip (buckets : Buckets) (o : Outcomes) (pathToStudyJSON : Str) (tr : List Event) :
    Completion × List Event :=
  let tr1 := tr ++ [Event.vaporlock buckets.lock pathToStudyJSON]
  if o tr1 then
    let tr2 := tr1 ++ [Event.zipBucket buckets.sim (replace pathToStudyJSON configJson [])
      buckets.study (replace pathToStudyJSON slashConfigJson dotZip)]
    if o tr2 then (.resolved, tr2) else (.rejected, tr2)
  else (.rejected, tr1)

/-- The function `deleteStudy(pathToStudyJSON)`: throws for an empty or root prefix,
else deletes the files under the prefix in `buckets.sim` and then the lock marker
in `buckets.lock`, each with retries. -/
def deleteStudy (buckets : Buckets) (o : Outcomes) (pathToStudyJSON : Str) (tr : List Event) :
    Completion × List Event :=
  let pfx := replace pathToStudyJSON configJson []
  if pfx.length = 0 ∨ pfx = ['/'] then
    (.threw ("will not delete entire bucket, pathToStudyJSON: ".toList ++ pathToStudyJSON), tr)
  else
    match promiseRetry o (Event.deleteFiles buckets.sim pfx) retries tr with
    | (true, tr1) =>
      match promiseRetry o (Event.deleteFile buckets.lock pathToStudyJSON) retries tr1 with
      | (true, tr2) => (.resolved, tr2)
      | (false, tr2) => (.rejected, tr2)
    | (false, tr1) => (.rejected, tr1)

/-- The iterator that `zipperTask` hands to `pEachSeries`:
`zip(study).then(()=>(deleteStudy(study))).then(onOk, onError)`.  A throw of
`deleteStudy` happens inside a `then` callback and so rejects the chain; both
handlers only write to the console, so the returned promise resolves. -/
def archiveStudy (buckets : Buckets) (o : Outcomes) (study : Str) (tr : List Event) :
    Completion × List Event :=
  match zip buckets o study tr with
  | (.resolved, tr1) =>
    match deleteStudy buckets o study tr1 with
    | (.resolved, tr2) => (.resolved, tr2 ++ [Event.logZippedAndDeleted study])
    | (_, tr2) => (.resolved, tr2 ++ [Event.logErrorProcessing study])
  | (_, tr1) => (.resolved, tr1 ++ [Event.logErrorProcessing study])

/-- The call `pEachSeries(list, iterator)` of the package `p-each-series`: the
iterator runs on the elements one after the other, each after the promise of
the one before resolved; the series stops and rejects when an iterator call
does not resolve. -/
def pEachSeries (iterator : Str → List Event → Completion × List Event) :
    List Str → List Event → Completion × List Event
  | [], tr => (.resolved, tr)
  | s :: rest, tr =>
    match iterator s tr with
    | (.resolved, tr1) => pEachSeries iterator rest tr1
    | (_, tr1) => (.rejected, tr1)

/-- The `then` callback of `zipperTask`, run once `allVerifiedStudies()` resolved
to `obj`: `pEachSeries(obj.verifiedStudies, ...)`. -/
def zipperTaskThen (buckets : Buckets) (o : Outcomes) (verifiedStudies : List Str)
    (tr : List Event) : Completion × List Event :=
  pEachSeries (archiveStudy buckets o) verifiedStudies tr

/-- The function `allVerifiedStudies()`, given the settlement `lsResult` of
`ls(buckets.sim)`: `none` when it throws because `buckets.sim` is empty, else the
settlement of `ls(buckets.sim).then(studies).then(verifyAll)`. -/
def allVerifiedStudies (c : Collab) (buckets : Buckets) (lsResult : Except Val Listing) :
    Option (Except Val Obj) :=
  if buckets.sim.isEmpty then none
  else
    match lsResult with
    | .error e => some (.error e)
    | .ok dir => some (verifyAll c buckets (studies dir))

/-- The function `zipperTask()`: a throw or a rejection of `allVerifiedStudies()` is
passed on, a resolved `obj` is handed to the archive loop. -/
def zipperTask (c : Collab) (buckets : Buckets) (o : Outcomes)
    (lsResult : Except Val Listing) : Completion × List Event :=
  match allVerifiedStudies c buckets lsResult with
  | none => (.threw "buckets.sim is empty".toList, [])
  | some (.error _) => (.rejected, [])
  | some (.ok obj) =>
    match obj.verifiedStudies with
    | some verifiedStudies => zipperTaskThen buckets o verifiedStudies []
    | none => (.rejected, [])

/-- Whether an event is a delete issued on the storage. -/
def Event.isDelete : Event → Bool
  | .deleteFiles _ _ => true
  | .deleteFile _ _ => true
  | _ => false

/-- A listing with two studies among five objects. -/
def sampleListing : Listing :=
  [("studyA/config.json".toList, ⟨"studyA/config.json".toList, []⟩),
   ("studyA/0/md5.json".toList, ⟨"studyA/0/md5.json".toList, []⟩),
   ("readme.txt".toList, ⟨"readme.txt".toList, []⟩),
   ("studyB/config.json".toList, ⟨"studyB/config.json".toList, []⟩),
   ("studyB/config.json.bak".toList, ⟨"studyB/config.json.bak".toList, []⟩)]

/-- Every delete among the events `ext`, issued after the history `hist`, comes
after the lock and the zip of one study of `vs` that both resolved, with only
deletes of that study in between, and is itself a delete of that study:
`deleteFiles` on `buckets.sim` with the zipped `fromPath` as prefix, or the
delete of the lock marker. -/
def DeletesJustified (buckets : Buckets) (o : Outcomes) (vs : List Str)
    (hist ext : List Event) : Prop :=
  ∀ pre e post, ext = pre ++ e :: post → e.isDelete = true →
    ∃ s ∈ vs, ∃ pre0 mid,
      pre = pre0 ++ [Event.vaporlock buckets.lock s,
        Event.zipBucket buckets.sim (zipFromPath s) buckets.study (zipToPath s)] ++ mid ∧
      o (hist ++ pre0 ++ [Event.vaporlock buckets.lock s]) = true ∧
      o (hist ++ pre0 ++ [Event.vaporlock buckets.lock s,
        Event.zipBucket buckets.sim (zipFromPath s) buckets.study (zipToPath s)]) = true ∧
      (∀ x ∈ mid, x = Event.deleteFiles buckets.sim (zipFromPath s) ∨
        x = Event.deleteFile buckets.lock s) ∧
      (e = Event.deleteFiles buckets.sim (zipFromPath s) ∨ e = Event.deleteFile buckets.lock s)

/-- The buckets of the examples. -/
def sampleBuckets : Buckets := ⟨"sim".toList, "study".toList, "lock".toList⟩

/-- A naming of manifests for the examples: the `i`-th manifest of a study is
`<study directory>/<i>/md5.json`, for `i` below ten. -/
def samplePaths (p : Str) (n : Nat) : List Str :=
  (List.range n).map (fun i =>
    replace p configJson [] ++ ("0123456789".toList.getD i '0' :: "/md5.json".toList))

/-- Collaborators for the examples: every descriptor declares `count`
configurations, and the `i`-th `verify` call of a study settles as `verifyResult i`. -/
def sampleCollab (count : Nat) (verifyResult : Nat → Except Val Val) : Collab :=
  { dlJSON := fun _ _ => .ok ⟨some (List.replicate count [])⟩
    paths := samplePaths
    verify := fun _ i _ _ => verifyResult i }

/-- Both checks resolve to a passing result `[true, ...]`. -/
def bothPass : Nat → Except Val Val := fun _ => .ok (.array (.bool true))

/-- The first check passes, the second resolves to a failing result `[false, ...]`. -/
def secondFails : Nat → Except Val Val :=
  fun i => if i = 1 then .ok (.array (.bool false)) else .ok (.array (.bool true))

/-- A listing with two complete studies of one configuration each. -/
def twoStudiesListing : Listing :=
  [("studyA/config.json".toList, ⟨"studyA/config.json".toList, []⟩),
   ("studyA/0/md5.json".toList, ⟨"studyA/0/md5.json".toList, []⟩),
   ("studyB/config.json".toList, ⟨"studyB/config.json".toList, []⟩),
   ("studyB/0/md5.json".toList, ⟨"studyB/0/md5.json".toList, []⟩)]

/-- Outcomes in which every call resolves except the `zipBucket` call for `studyA/`. -/
def zipOfStudyARejects : Outcomes := fun tr =>
  match tr.getLast? with
  | some (.zipBucket _ fromPath _ _) => fromPath != "studyA/".toList
  | _ => true

/-- The object that `allVerifiedStudies()` resolves to on `twoStudiesListing` when all
checks pass. -/
def twoStudiesObj : Obj :=
  { dir := twoStudiesListing
    studies := ["studyA/config.json".toList, "studyB/config.json".toList]
    verifiedStudies := some ["studyA/config.json".toList, "studyB/config.json".toList] }

/-! ## Properties -/

theorem endsWith_iff (s suffix : Str) : endsWith s suffix = true ↔ ∃ d, s = d ++ suffix := by
  unfold endsWith
  rw [List.isSuffixOf_iff_suffix]
  constructor
  · rintro ⟨d, h⟩; exact ⟨d, h.symm⟩
  · rintro ⟨d, h⟩; exact ⟨d, h.symm⟩

/-- Claim C7: for every listing, `studies(dir).dir` is the listing unchanged, and
`studies(dir).studies` keeps the order of the listing's keys, holds exactly the
keys that end in "config.json", and repeats none. -/
theorem studies_exact (dir : Listing) (hkeys : (keys dir).Nodup) :
    (studies dir).dir = dir ∧
    (studies dir).studies.Sublist (keys dir) ∧
    (∀ k, k ∈ (studies dir).studies ↔ k ∈ keys dir ∧ ∃ d, k = d ++ "config.json".toList) ∧
    (studies dir).studies.Nodup := by
  refine ⟨rfl, List.filter_sublist _, ?_, hkeys.filter _⟩
  intro k
  simp only [studies, List.mem_filter, endsWith_iff, configJson]

theorem studies_exact_witness :
    (keys sampleListing).Nodup ∧
    (studies sampleListing).studies = ["studyA/config.json".toList, "studyB/config.json".toList] ∧
    (studies sampleListing).studies.Nodup :=
  ⟨by decide, by decide, (studies_exact sampleListing (by decide)).2.2.2⟩

/-- Claim C5, at the descriptor path "myconfig.json.d/config.json", which ends in
"config.json": the prefix computed by `zip` and by `deleteStudy` is
"my.d/config.json", the path with its first "config.json" removed, and the
path is not that prefix followed by "config.json". -/
theorem prefix_removes_first_occurrence :
    endsWith "myconfig.json.d/config.json".toList configJson = true ∧
    zipFromPath "myconfig.json.d/config.json".toList = "my.d/config.json".toList ∧
    deletePrefix "myconfig.json.d/config.json".toList = "my.d/config.json".toList ∧
    zipFromPath "myconfig.json.d/config.json".toList ++ configJson
      ≠ "myconfig.json.d/config.json".toList := by
  decide

/-- Claim C10, at the descriptor path "a/myconfig.json", which ends in
"config.json" and is accepted by `studies`: the `toPath` computed by `zip` is
the path itself, which does not end in ".zip".  And at "a/config.json/config.json"
the first "/config.json" is replaced: `toPath` is "a.zip/config.json". -/
theorem toPath_without_zip_suffix :
    endsWith "a/myconfig.json".toList configJson = true ∧
    (studies [("a/myconfig.json".toList, ⟨"a/myconfig.json".toList, []⟩)]).studies
      = ["a/myconfig.json".toList] ∧
    zipToPath "a/myconfig.json".toList = "a/myconfig.json".toList ∧
    endsWith (zipToPath "a/myconfig.json".toList) dotZip = false ∧
    zipToPath "a/config.json/config.json".toList = "a.zip/config.json".toList := by
  decide

/-- Claim C2: when the computed deletion prefix is "" or "/", `deleteStudy` throws
and the event history is unchanged: no `deleteFiles` and no delete of the lock
marker is issued, whatever the storage would have answered. -/
theorem deleteStudy_refuses_root (buckets : Buckets) (o : Outcomes) (pathToStudyJSON : Str)
    (tr : List Event)
    (hroot : deletePrefix pathToStudyJSON = [] ∨ deletePrefix pathToStudyJSON = "/".toList) :
    deleteStudy buckets o pathToStudyJSON tr =
      (.threw ("will not delete entire bucket, pathToStudyJSON: ".toList ++ pathToStudyJSON), tr) := by
  unfold deleteStudy
  have h : (replace pathToStudyJSON configJson []).length = 0 ∨
      replace pathToStudyJSON configJson [] = ['/'] := by
    rcases hroot with h | h
    · left; rw [List.length_eq_zero]; exact h
    · right; exact h
  simp only [h, if_true]

theorem deleteStudy_refuses_root_witness :
    deleteStudy ⟨"sim".toList, "study".toList, "lock".toList⟩ (fun _ => true)
        "config.json".toList [] =
      (.threw "will not delete entire bucket, pathToStudyJSON: config.json".toList, []) ∧
    deleteStudy ⟨"sim".toList, "study".toList, "lock".toList⟩ (fun _ => true)
        "/config.json".toList [] =
      (.threw "will not delete entire bucket, pathToStudyJSON: /config.json".toList, []) :=
  ⟨deleteStudy_refuses_root _ _ _ _ (Or.inl (by decide)),
   deleteStudy_refuses_root _ _ _ _ (Or.inr (by decide))⟩

theorem promiseRetry_trace (o : Outcomes) (call : Event) :
    ∀ (n : Nat) (tr : List Event), ∃ D, (promiseRetry o call n tr).2 = tr ++ D ∧
      D ≠ [] ∧ ∀ x ∈ D, x = call := by
  intro n
  induction n with
  | zero =>
    intro tr
    exact ⟨[call], rfl, by simp, by simp⟩
  | succ n ih =>
    intro tr
    unfold promiseRetry
    by_cases h : o (tr ++ [call]) = true
    · rw [if_pos h]
      exact ⟨[call], rfl, by simp, by simp⟩
    · rw [if_neg h]
      obtain ⟨D, hD, _, hall⟩ := ih (tr ++ [call])
      refine ⟨call :: D, ?_, by simp, ?_⟩
      · rw [hD]; simp
      · intro x hx
        rcases List.mem_cons.mp hx with rfl | hx
        · rfl
        · exact hall x hx

theorem deleteStudy_shape (buckets : Buckets) (o : Outcomes) (s : Str) (tr : List Event) :
    ((deletePrefix s = [] ∨ deletePrefix s = ['/']) ∧ ∃ m, deleteStudy buckets o s tr = (.threw m, tr)) ∨
    (deletePrefix s ≠ [] ∧ deletePrefix s ≠ ['/'] ∧
      ∃ D, (deleteStudy buckets o s tr = (.resolved, tr ++ D) ∨
            deleteStudy buckets o s tr = (.rejected, tr ++ D)) ∧
        D ≠ [] ∧
        ∀ x ∈ D, x = Event.deleteFiles buckets.sim (zipFromPath s) ∨
          x = Event.deleteFile buckets.lock s) := by
  by_cases hbad : deletePrefix s = [] ∨ deletePrefix s = ['/']
  · left
    refine ⟨hbad, "will not delete entire bucket, pathToStudyJSON: ".toList ++ s, ?_⟩
    unfold deleteStudy
    have h : (replace s configJson []).length = 0 ∨ replace s configJson [] = ['/'] := by
      rcases hbad with h | h
      · left; rw [List.length_eq_zero]; exact h
      · right; exact h
    simp only [h, if_true]
  · right
    have hb1 : deletePrefix s ≠ [] := fun h => hbad (Or.inl h)
    have hb2 : deletePrefix s ≠ ['/'] := fun h => hbad (Or.inr h)
    refine ⟨hb1, hb2, ?_⟩
    have h : ¬ ((replace s configJson []).length = 0 ∨ replace s configJson [] = ['/']) := by
      rintro (h | h)
      · exact hb1 (List.length_eq_zero.mp h)
      · exact hb2 h
    unfold deleteStudy
    simp only [h, if_false]
    obtain ⟨D1, hD1, hne1, hall1⟩ := promiseRetry_trace o
      (Event.deleteFiles buckets.sim (replace s configJson [])) retries tr
    rcases hr1 : promiseRetry o (Event.deleteFiles buckets.sim (replace s configJson []))
      retries tr with ⟨ok1, tr1⟩
    rw [hr1] at hD1
    simp only at hD1
    cases ok1 with
    | false =>
      simp only
      refine ⟨D1, Or.inr (by rw [hD1]), hne1, ?_⟩
      intro x hx; left; exact hall1 x hx
    | true =>
      simp only
      obtain ⟨D2, hD2, _, hall2⟩ := promiseRetry_trace o
        (Event.deleteFile buckets.lock s) retries tr1
      rcases hr2 : promiseRetry o (Event.deleteFile buckets.lock s) retries tr1
        with ⟨ok2, tr2⟩
      rw [hr2] at hD2
      simp only at hD2
      have hmem : ∀ x ∈ D1 ++ D2, x = Event.deleteFiles buckets.sim (zipFromPath s) ∨
          x = Event.deleteFile buckets.lock s := by
        intro x hx
        rcases List.mem_append.mp hx with h | h
        · left; exact hall1 x h
        · right; exact hall2 x h
      have htr2 : tr2 = tr ++ (D1 ++ D2) := by rw [hD2, hD1, List.append_assoc]
      cases ok2 with
      | false =>
        simp only
        exact ⟨D1 ++ D2, Or.inr (by rw [htr2]), by simp [hne1], hmem⟩
      | true =>
        simp only
        exact ⟨D1 ++ D2, Or.inl (by rw [htr2]), by simp [hne1], hmem⟩

/-- The events that `archiveStudy` adds to the history, by case: the lock rejected;
the lock resolved and either the zip rejected or `deleteStudy` threw; or lock and
zip resolved and the deletes ran. -/
theorem archiveStudy_shape (buckets : Buckets) (o : Outcomes) (s : Str) (tr : List Event) :
    ∃ seg, archiveStudy buckets o s tr = (.resolved, tr ++ seg) ∧
      ((seg = [Event.vaporlock buckets.lock s, Event.logErrorProcessing s] ∧
          o (tr ++ [Event.vaporlock buckets.lock s]) = false) ∨
       (seg = [Event.vaporlock buckets.lock s,
            Event.zipBucket buckets.sim (zipFromPath s) buckets.study (zipToPath s),
            Event.logErrorProcessing s] ∧
          o (tr ++ [Event.vaporlock buckets.lock s]) = true ∧
          (o (tr ++ [Event.vaporlock buckets.lock s,
              Event.zipBucket buckets.sim (zipFromPath s) buckets.study (zipToPath s)]) = false ∨
            deletePrefix s = [] ∨ deletePrefix s = ['/'])) ∨
       (∃ D r, seg = [Event.vaporlock buckets.lock s,
            Event.zipBucket buckets.sim (zipFromPath s) buckets.study (zipToPath s)] ++ D ++ [r] ∧
          o (tr ++ [Event.vaporlock buckets.lock s]) = true ∧
          o (tr ++ [Event.vaporlock buckets.lock s,
              Event.zipBucket buckets.sim (zipFromPath s) buckets.study (zipToPath s)]) = true ∧
          deletePrefix s ≠ [] ∧ deletePrefix s ≠ ['/'] ∧
          D ≠ [] ∧
          (∀ x ∈ D, x = Event.deleteFiles buckets.sim (zipFromPath s) ∨
            x = Event.deleteFile buckets.lock s) ∧
          (r = Event.logZippedAndDeleted s ∨ r = Event.logErrorProcessing s))) := by
  have hfrom : replace s configJson [] = zipFromPath s := rfl
  have hto : replace s slashConfigJson dotZip = zipToPath s := rfl
  cases hlock : o (tr ++ [Event.vaporlock buckets.lock s])
  · refine ⟨_, ?_, Or.inl ⟨rfl, rfl⟩⟩
    simp [archiveStudy, zip, hlock]
  · have hl2 : tr ++ [Event.vaporlock buckets.lock s,
        Event.zipBucket buckets.sim (zipFromPath s) buckets.study (zipToPath s)] =
        tr ++ [Event.vaporlock buckets.lock s] ++
        [Event.zipBucket buckets.sim (zipFromPath s) buckets.study (zipToPath s)] := by simp
    cases hzip : o (tr ++ [Event.vaporlock buckets.lock s,
        Event.zipBucket buckets.sim (zipFromPath s) buckets.study (zipToPath s)])
    · refine ⟨_, ?_, Or.inr (Or.inl ⟨rfl, rfl, Or.inl rfl⟩)⟩
      simp [archiveStudy, zip, hlock, hfrom, hto, hzip]
    · rw [hl2] at hzip
      have hA : archiveStudy buckets o s tr =
          (match deleteStudy buckets o s (tr ++ [Event.vaporlock buckets.lock s] ++
            [Event.zipBucket buckets.sim (zipFromPath s) buckets.study (zipToPath s)]) with
          | (.resolved, tr2) => (.resolved, tr2 ++ [Event.logZippedAndDeleted s])
          | (_, tr2) => (.resolved, tr2 ++ [Event.logErrorProcessing s])) := by
        simp only [archiveStudy, zip, hlock, hfrom, hto, hzip, if_true]
      rw [hA]
      rcases deleteStudy_shape buckets o s (tr ++ [Event.vaporlock buckets.lock s] ++
            [Event.zipBucket buckets.sim (zipFromPath s) buckets.study (zipToPath s)])
        with ⟨hbad, m, hm⟩ | ⟨hb1, hb2, D, hD, hne, hall⟩
      · rw [hm]
        refine ⟨_, ?_, Or.inr (Or.inl ⟨rfl, rfl, Or.inr hbad⟩)⟩
        simp
      · rcases hD with hD | hD
        · rw [hD]
          refine ⟨_, ?_, Or.inr (Or.inr ⟨D, Event.logZippedAndDeleted s, rfl, rfl, rfl,
            hb1, hb2, hne, hall, Or.inl rfl⟩)⟩
          simp
        · rw [hD]
          refine ⟨_, ?_, Or.inr (Or.inr ⟨D, Event.logErrorProcessing s, rfl, rfl, rfl,
            hb1, hb2, hne, hall, Or.inr rfl⟩)⟩
          simp

theorem seg_delete_split (a b z e : Event) (D pre post : List Event)
    (ha : a.isDelete = false) (hb : b.isDelete = false) (hz : z.isDelete = false)
    (he : e.isDelete = true) (h : [a, b] ++ D ++ [z] = pre ++ e :: post) :
    ∃ mid post2, pre = [a, b] ++ mid ∧ D = mid ++ e :: post2 := by
  cases pre with
  | nil =>
    simp only [List.cons_append, List.nil_append, List.cons.injEq] at h
    rw [← h.1, ha] at he
    exact absurd he (by simp)
  | cons x pre1 =>
    cases pre1 with
    | nil =>
      simp only [List.cons_append, List.nil_append, List.cons.injEq] at h
      rw [← h.2.1, hb] at he
      exact absurd he (by simp)
    | cons y mid =>
      simp only [List.cons_append, List.nil_append, List.cons.injEq] at h
      obtain ⟨rfl, rfl, h3⟩ := h
      rcases List.append_eq_append_iff.mp h3 with ⟨a2, hmid, hz2⟩ | ⟨c2, hD, hc2⟩
      · cases a2 with
        | nil =>
          simp only [List.nil_append, List.cons.injEq] at hz2
          rw [← hz2.1, hz] at he
          exact absurd he (by simp)
        | cons w a3 =>
          simp only [List.cons_append, List.cons.injEq] at hz2
          have := hz2.2
          simp at this
      · cases c2 with
        | nil =>
          simp only [List.nil_append, List.cons.injEq] at hc2
          rw [hc2.1, hz] at he
          exact absurd he (by simp)
        | cons w c3 =>
          simp only [List.cons_append, List.cons.injEq] at hc2
          refine ⟨mid, c3, rfl, ?_⟩
          rw [hD, hc2.1]

theorem archiveStudy_justified (buckets : Buckets) (o : Outcomes) (s : Str) (tr : List Event) :
    ∃ seg, archiveStudy buckets o s tr = (.resolved, tr ++ seg) ∧
      DeletesJustified buckets o [s] tr seg := by
  obtain ⟨seg, hseg, hshape⟩ := archiveStudy_shape buckets o s tr
  refine ⟨seg, hseg, ?_⟩
  intro pre e post hsplit he
  have hmem : e ∈ seg := by rw [hsplit]; simp
  rcases hshape with ⟨rfl, _⟩ | ⟨rfl, _⟩ | ⟨D, r, rfl, hl, hz, _, _, _, hall, hr⟩
  · simp only [List.mem_cons, List.mem_singleton, List.not_mem_nil, or_false] at hmem
    rcases hmem with rfl | rfl <;> exact absurd he (by simp [Event.isDelete])
  · simp only [List.mem_cons, List.mem_singleton, List.not_mem_nil, or_false] at hmem
    rcases hmem with rfl | rfl | rfl <;> exact absurd he (by simp [Event.isDelete])
  · have hrd : r.isDelete = false := by rcases hr with rfl | rfl <;> rfl
    obtain ⟨mid, post2, hpre, hD⟩ := seg_delete_split
      (Event.vaporlock buckets.lock s)
      (Event.zipBucket buckets.sim (zipFromPath s) buckets.study (zipToPath s))
      r e D pre post rfl rfl hrd he hsplit
    refine ⟨s, List.mem_singleton.mpr rfl, [], mid, ?_, ?_, ?_, ?_, ?_⟩
    · rw [hpre]; simp
    · simpa using hl
    · simpa using hz
    · intro x hx
      exact hall x (by rw [hD]; simp [hx])
    · exact hall e (by rw [hD]; simp)

theorem pEachSeries_justified (buckets : Buckets) (o : Outcomes) (vs : List Str) :
    ∀ tr : List Event, ∃ ext,
      pEachSeries (archiveStudy buckets o) vs tr = (.resolved, tr ++ ext) ∧
      DeletesJustified buckets o vs tr ext := by
  induction vs with
  | nil =>
    intro tr
    refine ⟨[], by simp [pEachSeries], ?_⟩
    intro pre e post h _
    simp at h
  | cons s rest ih =>
    intro tr
    obtain ⟨seg, hseg, hjust⟩ := archiveStudy_justified buckets o s tr
    obtain ⟨ext, hext, hrest⟩ := ih (tr ++ seg)
    refine ⟨seg ++ ext, ?_, ?_⟩
    · simp only [pEachSeries, hseg, hext, List.append_assoc]
    · intro pre e post hsplit he
      have later : ∀ a2, pre = seg ++ a2 → ext = a2 ++ e :: post →
          ∃ s2 ∈ s :: rest, ∃ pre0 mid,
            pre = pre0 ++ [Event.vaporlock buckets.lock s2,
              Event.zipBucket buckets.sim (zipFromPath s2) buckets.study (zipToPath s2)] ++ mid ∧
            o (tr ++ pre0 ++ [Event.vaporlock buckets.lock s2]) = true ∧
            o (tr ++ pre0 ++ [Event.vaporlock buckets.lock s2,
              Event.zipBucket buckets.sim (zipFromPath s2) buckets.study (zipToPath s2)]) = true ∧
            (∀ x ∈ mid, x = Event.deleteFiles buckets.sim (zipFromPath s2) ∨
              x = Event.deleteFile buckets.lock s2) ∧
            (e = Event.deleteFiles buckets.sim (zipFromPath s2) ∨
              e = Event.deleteFile buckets.lock s2) := by
        intro a2 hpre hext2
        obtain ⟨s2, hs2, pre0, mid, h1, h2, h3, h4, h5⟩ := hrest a2 e post hext2 he
        refine ⟨s2, List.mem_cons_of_mem _ hs2, seg ++ pre0, mid, ?_, ?_, ?_, h4, h5⟩
        · rw [hpre, h1]; simp only [List.append_assoc]
        · rw [← List.append_assoc tr seg pre0]; exact h2
        · rw [← List.append_assoc tr seg pre0]; exact h3
      rcases List.append_eq_append_iff.mp hsplit with ⟨a2, hpre, hext2⟩ | ⟨c2, hsegc, hc2⟩
      · exact later a2 hpre hext2
      · cases c2 with
        | nil =>
          simp only [List.nil_append] at hc2
          exact later [] (by rw [hsegc]; simp) hc2.symm
        | cons w c3 =>
          simp only [List.cons_append, List.cons.injEq] at hc2
          obtain ⟨rfl, _⟩ := hc2
          obtain ⟨s2, hs2, pre0, mid, h1, h2, h3, h4, h5⟩ := hjust pre e c3 hsegc he
          have hs : s2 = s := List.mem_singleton.mp hs2
          subst hs
          exact ⟨s2, List.mem_cons_self _ _, pre0, mid, h1, h2, h3, h4, h5⟩

theorem archiveStudy_no_delete (buckets : Buckets) (o : Outcomes) (s : Str) (tr : List Event)
    (h : o (tr ++ [Event.vaporlock buckets.lock s]) = false ∨
      o (tr ++ [Event.vaporlock buckets.lock s,
        Event.zipBucket buckets.sim (zipFromPath s) buckets.study (zipToPath s)]) = false ∨
      deletePrefix s = [] ∨ deletePrefix s = ['/']) :
    ∃ seg, archiveStudy buckets o s tr = (.resolved, tr ++ seg) ∧
      (∀ x ∈ seg, x.isDelete = false) ∧ seg.getLast? = some (Event.logErrorProcessing s) := by
  obtain ⟨seg, hseg, hshape⟩ := archiveStudy_shape buckets o s tr
  refine ⟨seg, hseg, ?_⟩
  rcases hshape with ⟨rfl, _⟩ | ⟨rfl, _⟩ | ⟨D, r, rfl, hl, hz, hb1, hb2, _⟩
  · refine ⟨?_, rfl⟩
    intro x hx
    simp only [List.mem_cons, List.mem_singleton, List.not_mem_nil, or_false] at hx
    rcases hx with rfl | rfl <;> rfl
  · refine ⟨?_, rfl⟩
    intro x hx
    simp only [List.mem_cons, List.mem_singleton, List.not_mem_nil, or_false] at hx
    rcases hx with rfl | rfl | rfl <;> rfl
  · rcases h with h | h | h | h
    · rw [hl] at h; exact absurd h (by simp)
    · rw [hz] at h; exact absurd h (by simp)
    · exact absurd h hb1
    · exact absurd h hb2

theorem zipperTask_eq (c : Collab) (buckets : Buckets) (o : Outcomes)
    (lsResult : Except Val Listing) (obj : Obj) (vs : List Str)
    (hobj : allVerifiedStudies c buckets lsResult = some (.ok obj))
    (hvs : obj.verifiedStudies = some vs) :
    zipperTask c buckets o lsResult = pEachSeries (archiveStudy buckets o) vs [] := by
  simp only [zipperTask, hobj, hvs, zipperTaskThen]

/-- Claim C1: once `allVerifiedStudies()` resolved with the list of verified
studies, whatever the collaborators answer, every delete among the events of
`zipperTask` is a delete of one verified study `s` (`deleteFiles` on `buckets.sim`
with the prefix that was zipped, or the delete of the lock marker of `s`), and
comes after the `vaporlock` and the `zipBucket` call of `s`, which both resolved,
with only deletes of `s` in between.  And when the lock or the zip of a study
rejects, the archive sequence of that study issues no delete. -/
theorem zipperTask_delete_only_after_zip (c : Collab) (buckets : Buckets) (o : Outcomes)
    (lsResult : Except Val Listing) (obj : Obj) (verifiedStudies : List Str)
    (hobj : allVerifiedStudies c buckets lsResult = some (.ok obj))
    (hvs : obj.verifiedStudies = some verifiedStudies) :
    (∀ pre e post, (zipperTask c buckets o lsResult).2 = pre ++ e :: post →
      e.isDelete = true →
      ∃ s ∈ verifiedStudies, ∃ pre0 mid,
        pre = pre0 ++ [Event.vaporlock buckets.lock s,
          Event.zipBucket buckets.sim (zipFromPath s) buckets.study (zipToPath s)] ++ mid ∧
        o (pre0 ++ [Event.vaporlock buckets.lock s]) = true ∧
        o (pre0 ++ [Event.vaporlock buckets.lock s,
          Event.zipBucket buckets.sim (zipFromPath s) buckets.study (zipToPath s)]) = true ∧
        (∀ x ∈ mid, x = Event.deleteFiles buckets.sim (zipFromPath s) ∨
          x = Event.deleteFile buckets.lock s) ∧
        (e = Event.deleteFiles buckets.sim (zipFromPath s) ∨
          e = Event.deleteFile buckets.lock s)) ∧
    (∀ s tr, (o (tr ++ [Event.vaporlock buckets.lock s]) = false ∨
        o (tr ++ [Event.vaporlock buckets.lock s,
          Event.zipBucket buckets.sim (zipFromPath s) buckets.study (zipToPath s)]) = false) →
      ∃ seg, archiveStudy buckets o s tr = (.resolved, tr ++ seg) ∧
        ∀ x ∈ seg, x.isDelete = false) := by
  constructor
  · obtain ⟨ext, hext, hjust⟩ := pEachSeries_justified buckets o verifiedStudies []
    rw [zipperTask_eq c buckets o lsResult obj verifiedStudies hobj hvs, hext]
    intro pre e post hsplit he
    obtain ⟨s, hs, pre0, mid, h1, h2, h3, h4, h5⟩ :=
      hjust pre e post (by simpa using hsplit) he
    exact ⟨s, hs, pre0, mid, h1, by simpa using h2, by simpa using h3, h4, h5⟩
  · intro s tr h
    obtain ⟨seg, hseg, hno, _⟩ := archiveStudy_no_delete buckets o s tr (by
      rcases h with h | h
      · exact Or.inl h
      · exact Or.inr (Or.inl h))
    exact ⟨seg, hseg, hno⟩

/-- Claim C9, as stated, fails: for the verified study "config.json", whose deletion
prefix is "", with a lock and a zip that resolve, the archive sequence acquires
the lock and calls `zipBucket` with the empty `fromPath`, and only then reports
the error of `deleteStudy`. -/
theorem archiveStudy_zips_whole_bucket :
    deletePrefix "config.json".toList = [] ∧
    archiveStudy sampleBuckets (fun _ => true) "config.json".toList [] =
      (.resolved,
        [Event.vaporlock "lock".toList "config.json".toList,
         Event.zipBucket "sim".toList [] "study".toList "config.json".toList,
         Event.logErrorProcessing "config.json".toList]) := by
  decide

/-- Claim C9, amended: for every study path whose deletion prefix is "" or "/", the
archive sequence of `zipperTask` issues no delete and ends by reporting the error
for that study: when the lock rejects its events are the lock request and the
report, and when the lock resolves they are the lock request, the `zipBucket`
call and the report. -/
theorem archiveStudy_at_root (buckets : Buckets) (o : Outcomes) (s : Str) (tr : List Event)
    (hbad : deletePrefix s = [] ∨ deletePrefix s = "/".toList) :
    (o (tr ++ [Event.vaporlock buckets.lock s]) = false →
      archiveStudy buckets o s tr =
        (.resolved, tr ++ [Event.vaporlock buckets.lock s, Event.logErrorProcessing s])) ∧
    (o (tr ++ [Event.vaporlock buckets.lock s]) = true →
      archiveStudy buckets o s tr =
        (.resolved, tr ++ [Event.vaporlock buckets.lock s,
          Event.zipBucket buckets.sim (zipFromPath s) buckets.study (zipToPath s),
          Event.logErrorProcessing s])) ∧
    (∀ x ∈ (archiveStudy buckets o s tr).2.drop tr.length, x.isDelete = false) := by
  obtain ⟨seg, hseg, hshape⟩ := archiveStudy_shape buckets o s tr
  rw [hseg]
  rcases hshape with ⟨rfl, hl⟩ | ⟨rfl, hl, _⟩ | ⟨D, r, rfl, _, _, hb1, hb2, _⟩
  · refine ⟨fun _ => rfl, fun h => ?_, ?_⟩
    · rw [hl] at h; exact absurd h (by simp)
    · simp [Event.isDelete]
  · refine ⟨fun h => ?_, fun _ => rfl, ?_⟩
    · rw [hl] at h; exact absurd h (by simp)
    · simp [Event.isDelete]
  · rcases hbad with h | h
    · exact absurd h hb1
    · exact absurd h hb2

theorem zipperTask_delete_only_after_zip_witness :
    ∃ s ∈ ["studyA/config.json".toList, "studyB/config.json".toList], ∃ pre0 mid,
      [Event.vaporlock "lock".toList "studyA/config.json".toList,
       Event.zipBucket "sim".toList "studyA/".toList "study".toList "studyA.zip".toList,
       Event.logErrorProcessing "studyA/config.json".toList,
       Event.vaporlock "lock".toList "studyB/config.json".toList,
       Event.zipBucket "sim".toList "studyB/".toList "study".toList "studyB.zip".toList] =
        pre0 ++ [Event.vaporlock sampleBuckets.lock s,
          Event.zipBucket sampleBuckets.sim (zipFromPath s) sampleBuckets.study (zipToPath s)]
          ++ mid ∧
      zipOfStudyARejects (pre0 ++ [Event.vaporlock sampleBuckets.lock s]) = true ∧
      zipOfStudyARejects (pre0 ++ [Event.vaporlock sampleBuckets.lock s,
        Event.zipBucket sampleBuckets.sim (zipFromPath s) sampleBuckets.study (zipToPath s)])
        = true ∧
      (∀ x ∈ mid, x = Event.deleteFiles sampleBuckets.sim (zipFromPath s) ∨
        x = Event.deleteFile sampleBuckets.lock s) ∧
      (Event.deleteFiles "sim".toList "studyB/".toList =
          Event.deleteFiles sampleBuckets.sim (zipFromPath s) ∨
        Event.deleteFiles "sim".toList "studyB/".toList = Event.deleteFile sampleBuckets.lock s) :=
  (zipperTask_delete_only_after_zip (sampleCollab 1 bothPass) sampleBuckets zipOfStudyARejects
     (.ok twoStudiesListing) twoStudiesObj
     ["studyA/config.json".toList, "studyB/config.json".toList] (by decide) rfl).1
    [Event.vaporlock "lock".toList "studyA/config.json".toList,
     Event.zipBucket "sim".toList "studyA/".toList "study".toList "studyA.zip".toList,
     Event.logErrorProcessing "studyA/config.json".toList,
     Event.vaporlock "lock".toList "studyB/config.json".toList,
     Event.zipBucket "sim".toList "studyB/".toList "study".toList "studyB.zip".toList]
    (Event.deleteFiles "sim".toList "studyB/".toList)
    [Event.deleteFile "lock".toList "studyB/config.json".toList,
     Event.logZippedAndDeleted "studyB/config.json".toList]
    (by decide) rfl

theorem archiveStudy_at_root_witness :
    archiveStudy sampleBuckets (fun _ => false) "/config.json".toList [] =
      (.resolved, [Event.vaporlock "lock".toList "/config.json".toList,
        Event.logErrorProcessing "/config.json".toList]) ∧
    ∀ x ∈ (archiveStudy sampleBuckets (fun _ => true) "/config.json".toList []).2.drop 0,
      x.isDelete = false :=
  ⟨(archiveStudy_at_root sampleBuckets (fun _ => false) "/config.json".toList []
      (Or.inr (by decide))).1 rfl,
   (archiveStudy_at_root sampleBuckets (fun _ => true) "/config.json".toList []
      (Or.inr (by decide))).2.2⟩

end Yarra
